import Mathlib

/-!
Shallow embedding of the `framebuffer-manager` crate (`src/lib.rs`).

Modelling conventions:
* `usize` values are modelled as `Nat`; under every claim's hypotheses all
  quantities are far below `2 ^ 64`, so unchecked `Nat` addition and
  multiplication coincide with the source's `usize` arithmetic.
* `usize` subtraction underflow is an arithmetic fault in Rust (a panic with
  overflow checks enabled); fallible operations are therefore modelled in
  `Option`, with `none` standing for a panic.  `csub` is checked subtraction.
* Slice indexing (`buffer[i]`) panics when out of bounds; reads and writes go
  through `getByte`/`setByte`, which return `none` exactly in that case.
* The display device (the `framebuffer` crate) is an external collaborator:
  `Framebuffer` here carries only the geometry fields the library reads
  (`fix_screen_info.line_length`, `var_screen_info.bits_per_pixel`,
  `var_screen_info.yres`), which `FBmanager::new` obtains by opening the
  device.
-/

/-- Geometry reported in `fix_screen_info` (row stride in bytes). -/
structure FixScreenInfo where
  line_length : Nat

/-- Geometry reported in `var_screen_info`. -/
structure VarScreenInfo where
  bits_per_pixel : Nat
  yres : Nat

/-- The display device's geometry, as read by the library. -/
structure Framebuffer where
  fix_screen_info : FixScreenInfo
  var_screen_info : VarScreenInfo

/-- Row stride in bytes (`fb.fix_screen_info.line_length`). -/
def Framebuffer.line_length (fb : Framebuffer) : Nat :=
  fb.fix_screen_info.line_length

/-- Bytes per pixel (`fb.var_screen_info.bits_per_pixel / 8`). -/
def Framebuffer.bytespp (fb : Framebuffer) : Nat :=
  fb.var_screen_info.bits_per_pixel / 8

/-- Display height in rows (`fb.var_screen_info.yres`). -/
def Framebuffer.height (fb : Framebuffer) : Nat :=
  fb.var_screen_info.yres

/-- Represents a pixel on the screen (a byte offset into the buffer). -/
structure Pixel where
  index : Nat

/-- Represents a point. -/
structure Point where
  x : Nat
  y : Nat

/-- Translation of a `Point` by a pair, as in the `Add`/`AddAssign` impls. -/
def Point.add (p : Point) (offset : Nat × Nat) : Point :=
  { x := p.x + offset.1, y := p.y + offset.2 }

instance : HAdd Point (Nat × Nat) Point := ⟨Point.add⟩

/-- Checked `usize` subtraction: `none` models the Rust underflow panic. -/
def csub (a b : Nat) : Option Nat :=
  if b ≤ a then some (a - b) else none

/-- Checked write of one byte: `buffer[i] = v` panics when `i` is out of
bounds, modelled as `none`. -/
def setByte (buffer : List Nat) (i v : Nat) : Option (List Nat) :=
  if i < buffer.length then some (buffer.set i v) else none

/-- Checked read of one byte: `buffer[i]` panics when out of bounds. -/
def getByte (buffer : List Nat) (i : Nat) : Option Nat :=
  buffer[i]?

/-- Sets the `Pixel` to the given RGB value in the given buffer:
`buffer[index] = b; buffer[index+1] = g; buffer[index+2] = r`. -/
def Pixel.set_rgb (p : Pixel) (buffer : List Nat) (r g b : Nat) :
    Option (List Nat) := do
  let buffer ← setByte buffer p.index b
  let buffer ← setByte buffer (p.index + 1) g
  let buffer ← setByte buffer (p.index + 2) r
  some buffer

/-- Gets the current color of the `Pixel`:
`(buffer[index+2], buffer[index+1], buffer[index])`. -/
def Pixel.get_rgb (p : Pixel) (buffer : List Nat) : Option (Nat × Nat × Nat) := do
  let r ← getByte buffer (p.index + 2)
  let g ← getByte buffer (p.index + 1)
  let b ← getByte buffer p.index
  some (r, g, b)

/-- A 2D grid of `Pixel`s anchored at a `Point`. -/
structure Rectangle where
  location : Point
  height : Nat
  width : Nat
  pixels : List (List Pixel)

/-- Creates a new `Rectangle` from the given dimensions and assigns the
`Pixel`s their indices: for `i in 0..height`, `k in 0..width`,
`index = (i + loc.y) * line_length + (k + loc.x) * bytespp`. -/
def Rectangle.from_dimensions (loc : Point) (height width : Nat)
    (fb : Framebuffer) : Rectangle :=
  let line_length := fb.fix_screen_info.line_length
  let bytespp := fb.var_screen_info.bits_per_pixel / 8
  { location := loc
    height := height
    width := width
    pixels := (List.range height).map (fun i =>
      (List.range width).map (fun k =>
        { index := (i + loc.y) * line_length + (k + loc.x) * bytespp })) }

/-- Inner loop of `Rectangle::fill`: sets every pixel of one row. -/
def fillRow : List Pixel → List Nat → Nat × Nat × Nat → Option (List Nat)
  | [], buffer, _ => some buffer
  | p :: ps, buffer, rgb => do
      let buffer ← p.set_rgb buffer rgb.1 rgb.2.1 rgb.2.2
      fillRow ps buffer rgb

/-- Outer loop of `Rectangle::fill`: iterates over the rows. -/
def fillRows : List (List Pixel) → List Nat → Nat × Nat × Nat → Option (List Nat)
  | [], buffer, _ => some buffer
  | row :: rows, buffer, rgb => do
      let buffer ← fillRow row buffer rgb
      fillRows rows buffer rgb

/-- Fills a `Rectangle` with a given color: calls `set_rgb` on every pixel in
row-major order. -/
def Rectangle.fill (r : Rectangle) (buffer : List Nat) (rgb : Nat × Nat × Nat) :
    Option (List Nat) :=
  fillRows r.pixels buffer rgb

/-- Represents a border around a `Window`. -/
structure Border where
  top : Rectangle
  bot : Rectangle
  left : Rectangle
  right : Rectangle

/-- Represents a portion of the screen. -/
structure Window where
  border : Option Border
  width : Nat
  height : Nat
  main_context : Rectangle

/-- Fills a `Window`'s `main_context` with the given color. -/
def Window.fill (w : Window) (buffer : List Nat) (rgb : Nat × Nat × Nat) :
    Option (List Nat) :=
  w.main_context.fill buffer rgb

/-- Fills a `Window`'s `border` with the given color (top, left, right,
bottom, in the source's order); a no-op when there is no border. -/
def Window.fill_border (w : Window) (buffer : List Nat)
    (rgb : Nat × Nat × Nat) : Option (List Nat) :=
  match w.border with
  | some br => do
      let buffer ← br.top.fill buffer rgb
      let buffer ← br.left.fill buffer rgb
      let buffer ← br.right.fill buffer rgb
      let buffer ← br.bot.fill buffer rgb
      some buffer
  | none => some buffer

/-- A template to create a `Window`. -/
structure WindowTemplate where
  id : Nat
  location : Point
  width : Nat
  height : Nat
  border_thickness : Nat

/-- Body of the per-template loop in `FBmanager::new`: builds one `Window`
from one `WindowTemplate`.  The `usize` subtractions on border geometry are
checked (`csub`), so `none` models the construction panicking. -/
def buildWindow (fb : Framebuffer) (t : WindowTemplate) : Option Window :=
  if 0 < t.border_thickness then do
    let border_height := t.border_thickness
    let border_width := t.width
    let top := Rectangle.from_dimensions t.location border_height border_width fb
    let dy ← csub t.height t.border_thickness
    let bot := Rectangle.from_dimensions (t.location + ((0 : Nat), dy))
      border_height border_width fb
    let dx ← csub t.width t.border_thickness
    let bh ← csub t.height (2 * t.border_thickness)
    let right := Rectangle.from_dimensions
      (t.location + (dx, t.border_thickness)) bh t.border_thickness fb
    let left := Rectangle.from_dimensions
      (t.location + ((0 : Nat), t.border_thickness)) bh t.border_thickness fb
    let ch ← csub t.height (2 * t.border_thickness)
    let cw ← csub t.width (2 * t.border_thickness)
    some { border := some { top := top, bot := bot, left := left, right := right }
           width := t.width
           height := t.height
           main_context := Rectangle.from_dimensions
             (t.location + (t.border_thickness, t.border_thickness)) ch cw fb }
  else
    some { border := none
           width := t.width
           height := t.height
           main_context := Rectangle.from_dimensions t.location t.height t.width fb }

/-- The window-construction loop of `FBmanager::new`, in template order. -/
def buildWindows (fb : Framebuffer) : List WindowTemplate → Option (List Window)
  | [] => some []
  | t :: ts => do
      let w ← buildWindow fb t
      let ws ← buildWindows fb ts
      some (w :: ws)

/-- A container to manage the framebuffer. -/
structure FBmanager where
  framebuffer : Framebuffer
  buffer : List Nat
  windows : List Window

/-- Creates a new `FBmanager` using the given template list.  The display
geometry `fb` is what the source reads from the opened `/dev/fb0` device. -/
def FBmanager.new (template : List WindowTemplate) (fb : Framebuffer) :
    Option FBmanager := do
  let height := fb.var_screen_info.yres
  let line_length := fb.fix_screen_info.line_length
  let buffer := List.replicate (line_length * height) 0
  let windows ← buildWindows fb template
  some { framebuffer := fb, buffer := buffer, windows := windows }

/-- Fills the `Window` with the given `id` to the given color
(`self.windows[id]` panics when `id` is out of range). -/
def FBmanager.fill (m : FBmanager) (id : Nat) (rgb : Nat × Nat × Nat) :
    Option FBmanager := do
  let w ← m.windows[id]?
  let buffer ← w.fill m.buffer rgb
  some { m with buffer := buffer }

/-- Fills the border of the `Window` with the given `id`. -/
def FBmanager.fill_border (m : FBmanager) (id : Nat) (rgb : Nat × Nat × Nat) :
    Option FBmanager := do
  let w ← m.windows[id]?
  let buffer ← w.fill_border m.buffer rgb
  some { m with buffer := buffer }

/-- The multiset of byte offsets of a `Rectangle`'s pixels. -/
def Rectangle.offsets (r : Rectangle) : List Nat :=
  r.pixels.flatten.map Pixel.index

/-- All pixels of a `Border`. -/
def Border.allPixels (b : Border) : List Pixel :=
  b.top.pixels.flatten ++ b.bot.pixels.flatten ++ b.left.pixels.flatten ++
    b.right.pixels.flatten

/-- All pixels held by a `Window` (interior and border). -/
def Window.allPixels (w : Window) : List Pixel :=
  w.main_context.pixels.flatten ++
    (match w.border with
     | some b => b.allPixels
     | none => [])

/-- All pixels ever constructed by a manager. -/
def FBmanager.allPixels (m : FBmanager) : List Pixel :=
  (m.windows.map Window.allPixels).flatten

/-- `j` is one of the three buffer positions written through pixel `p`. -/
def pixelCovers (p : Pixel) (j : Nat) : Prop :=
  j = p.index ∨ j = p.index + 1 ∨ j = p.index + 2

instance (p : Pixel) (j : Nat) : Decidable (pixelCovers p j) := by
  unfold pixelCovers; infer_instance

/-- A manager with no windows and an empty buffer (used as an `Option`
fallback at concrete inputs). -/
def emptyFB : FBmanager :=
  { framebuffer := { fix_screen_info := { line_length := 0 }
                     var_screen_info := { bits_per_pixel := 0, yres := 0 } }
    buffer := []
    windows := [] }

/-- A degenerate rectangle (used as an `Option` fallback at concrete
inputs). -/
def emptyRect : Rectangle :=
  { location := { x := 0, y := 0 }, height := 0, width := 0, pixels := [] }

/-- A degenerate window (used as an `Option` fallback at concrete inputs). -/
def emptyWindow : Window :=
  { border := none, width := 0, height := 0, main_context := emptyRect }

/-- A degenerate border (used as an `Option` fallback at concrete inputs). -/
def emptyBorder : Border :=
  { top := emptyRect, bot := emptyRect, left := emptyRect, right := emptyRect }

/-- Specification of `Rectangle::from_dimensions` at `(loc, h, w, fb)`: the
grid has `h` rows of `w` pixels (`h * w` pixels in total), the pixel at
`(i, k)` carries the offset `(i + loc.y) * row_stride + (k + loc.x) *
bytes_per_pixel`, and distinct grid positions carry distinct offsets. -/
def rectCorrect (loc : Point) (h w : Nat) (fb : Framebuffer) : Prop :=
  let r := Rectangle.from_dimensions loc h w fb
  r.pixels.length = h ∧
  (∀ row ∈ r.pixels, row.length = w) ∧
  (r.pixels.map List.length).sum = h * w ∧
  (∀ i k, i < h → k < w →
    (r.pixels[i]?).bind (fun row => row[k]?) =
      some { index := (i + loc.y) * fb.line_length + (k + loc.x) * fb.bytespp }) ∧
  (∀ i k i' k', i < h → k < w → i' < h → k' < w →
    (r.pixels[i]?).bind (fun row => row[k]?) =
      (r.pixels[i']?).bind (fun row => row[k']?) → i = i' ∧ k = k')

/-- The two rectangles cover disjoint sets of byte offsets. -/
def offDisj (r1 r2 : Rectangle) : Prop :=
  ∀ a, a ∈ r1.offsets → a ∈ r2.offsets → False

/-- The interior and the four border rectangles together cover exactly the
offsets of `full`. -/
def coversSame (w : Window) (b : Border) (full : Rectangle) : Prop :=
  ∀ a, (a ∈ w.main_context.offsets ∨ a ∈ b.top.offsets ∨ a ∈ b.bot.offsets ∨
        a ∈ b.left.offsets ∨ a ∈ b.right.offsets) ↔ a ∈ full.offsets

/-- The five regions of a bordered window are pairwise offset-disjoint and
together cover exactly the offsets of `full`. -/
def windowPartition (w : Window) (b : Border) (full : Rectangle) : Prop :=
  offDisj w.main_context b.top ∧ offDisj w.main_context b.bot ∧
  offDisj w.main_context b.left ∧ offDisj w.main_context b.right ∧
  offDisj b.top b.bot ∧ offDisj b.top b.left ∧ offDisj b.top b.right ∧
  offDisj b.bot b.left ∧ offDisj b.bot b.right ∧ offDisj b.left b.right ∧
  coversSame w b full

/-- Every pixel held by the manager addresses three in-bounds bytes of the
manager's buffer, so `set_rgb` and `get_rgb` through it never hit the
out-of-bounds branch. -/
def managerSafe (m : FBmanager) : Prop :=
  ∀ p ∈ m.allPixels, p.index + 2 < m.buffer.length ∧
    (∀ r g b, (p.set_rgb m.buffer r g b).isSome = true) ∧
    (p.get_rgb m.buffer).isSome = true

/-- Specification of `FBmanager::new`: the buffer has `row_stride * height`
zero bytes and `windows[i]` is built from `templates[i]`. -/
def managerBuildSpec (ts : List WindowTemplate) (fb : Framebuffer)
    (m : FBmanager) : Prop :=
  m.buffer.length = fb.line_length * fb.height ∧
  (∀ x ∈ m.buffer, x = 0) ∧
  m.windows.length = ts.length ∧
  (∀ i, (hi : i < ts.length) →
    m.windows[i]? = buildWindow fb ts[i])

/-- Specification of `Pixel::set_rgb`: it succeeds, writing `b` at `index`,
`g` at `index + 1`, `r` at `index + 2`, leaving every other byte and the
buffer length unchanged. -/
def writesExactly (p : Pixel) (buffer : List Nat) (r g b : Nat) : Prop :=
  ∃ out, p.set_rgb buffer r g b = some out ∧
    out.length = buffer.length ∧
    out[p.index]? = some b ∧
    out[p.index + 1]? = some g ∧
    out[p.index + 2]? = some r ∧
    (∀ j, j ≠ p.index → j ≠ p.index + 1 → j ≠ p.index + 2 →
      out[j]? = buffer[j]?)

/-- Frame condition of `Rectangle::fill`: the output buffer has the input's
length and agrees with it on every position not covered by one of the
rectangle's pixels. -/
def fillFrameSpec (r : Rectangle) (buffer out : List Nat) : Prop :=
  out.length = buffer.length ∧
  (∀ j, (∀ p ∈ r.pixels.flatten, ¬ pixelCovers p j) →
    out[j]? = buffer[j]?)

/-! ### Byte-level lemmas -/

theorem getElem?_isSome_iff (l : List Nat) (i : Nat) :
    (l[i]?).isSome = true ↔ i < l.length := by
  constructor
  · intro h
    by_contra hlt
    rw [List.getElem?_eq_none_iff.mpr (by omega)] at h
    simp at h
  · intro h
    rw [List.getElem?_eq_getElem h]
    rfl

theorem setByte_pos (buffer : List Nat) (i v : Nat) (h : i < buffer.length) :
    setByte buffer i v = some (buffer.set i v) := by
  simp [setByte, h]

theorem setByte_eq_some (buffer : List Nat) (i v : Nat) (out : List Nat) :
    setByte buffer i v = some out ↔
      i < buffer.length ∧ out = buffer.set i v := by
  unfold setByte
  split <;> simp_all [eq_comm]

theorem set_rgb_some (p : Pixel) (buffer : List Nat) (r g b : Nat)
    (h : p.index + 2 < buffer.length) :
    p.set_rgb buffer r g b =
      some (((buffer.set p.index b).set (p.index + 1) g).set (p.index + 2) r) := by
  simp [Pixel.set_rgb, setByte, List.length_set,
    show p.index < buffer.length by omega,
    show p.index + 1 < buffer.length by omega,
    show p.index + 2 < buffer.length by omega]

theorem set_rgb_none (p : Pixel) (buffer : List Nat) (r g b : Nat)
    (h : ¬ p.index + 2 < buffer.length) :
    p.set_rgb buffer r g b = none := by
  simp only [Pixel.set_rgb, setByte, List.length_set]
  split_ifs <;> simp_all

theorem set_rgb_eq_some (p : Pixel) (buffer : List Nat) (r g b : Nat)
    (out : List Nat) :
    p.set_rgb buffer r g b = some out ↔
      p.index + 2 < buffer.length ∧
      out = ((buffer.set p.index b).set (p.index + 1) g).set (p.index + 2) r := by
  constructor
  · intro h
    by_cases hl : p.index + 2 < buffer.length
    · rw [set_rgb_some p buffer r g b hl] at h
      exact ⟨hl, (Option.some.inj h).symm⟩
    · rw [set_rgb_none p buffer r g b hl] at h
      cases h
  · rintro ⟨hl, rfl⟩
    exact set_rgb_some p buffer r g b hl

theorem set_rgb_isSome_iff (p : Pixel) (buffer : List Nat) (r g b : Nat) :
    (p.set_rgb buffer r g b).isSome = true ↔ p.index + 2 < buffer.length := by
  constructor
  · intro h
    by_contra hl
    rw [set_rgb_none p buffer r g b hl] at h
    simp at h
  · intro h
    rw [set_rgb_some p buffer r g b h]
    rfl

theorem set_rgb_length (p : Pixel) (buffer : List Nat) (r g b : Nat)
    (out : List Nat) (h : p.set_rgb buffer r g b = some out) :
    out.length = buffer.length := by
  obtain ⟨-, rfl⟩ := (set_rgb_eq_some p buffer r g b out).mp h
  simp

theorem set_rgb_untouched (p : Pixel) (buffer : List Nat) (r g b : Nat)
    (out : List Nat) (j : Nat) (h : p.set_rgb buffer r g b = some out)
    (hj : ¬ pixelCovers p j) : out[j]? = buffer[j]? := by
  obtain ⟨-, rfl⟩ := (set_rgb_eq_some p buffer r g b out).mp h
  simp only [pixelCovers, not_or] at hj
  rw [List.getElem?_set_ne (by omega), List.getElem?_set_ne (by omega),
    List.getElem?_set_ne (by omega)]

theorem set_rgb_written (p : Pixel) (buffer : List Nat) (r g b : Nat)
    (out : List Nat) (h : p.set_rgb buffer r g b = some out) :
    out[p.index]? = some b ∧ out[p.index + 1]? = some g ∧
      out[p.index + 2]? = some r := by
  obtain ⟨hl, rfl⟩ := (set_rgb_eq_some p buffer r g b out).mp h
  refine ⟨?_, ?_, ?_⟩
  · rw [List.getElem?_set_ne (by omega), List.getElem?_set_ne (by omega)]
    exact List.getElem?_set_eq_of_lt b (by omega)
  · rw [List.getElem?_set_ne (by omega)]
    exact List.getElem?_set_eq_of_lt g (by simp [List.length_set]; omega)
  · exact List.getElem?_set_eq_of_lt r (by simp [List.length_set]; omega)

theorem set_rgb_det (p : Pixel) (b1 b2 : List Nat) (r g b : Nat)
    (o1 o2 : List Nat) (j : Nat)
    (h1 : p.set_rgb b1 r g b = some o1) (h2 : p.set_rgb b2 r g b = some o2)
    (hj : pixelCovers p j) : o1[j]? = o2[j]? := by
  obtain ⟨w1a, w1b, w1c⟩ := set_rgb_written p b1 r g b o1 h1
  obtain ⟨w2a, w2b, w2c⟩ := set_rgb_written p b2 r g b o2 h2
  rcases hj with rfl | rfl | rfl
  · rw [w1a, w2a]
  · rw [w1b, w2b]
  · rw [w1c, w2c]

theorem get_rgb_eval (p : Pixel) (buffer : List Nat)
    (h : p.index + 2 < buffer.length) :
    p.get_rgb buffer =
      some (buffer.get ⟨p.index + 2, h⟩,
            buffer.get ⟨p.index + 1, by omega⟩,
            buffer.get ⟨p.index, by omega⟩) := by
  simp [Pixel.get_rgb, getByte, List.getElem?_eq_getElem h,
    List.getElem?_eq_getElem (show p.index + 1 < buffer.length by omega),
    List.getElem?_eq_getElem (show p.index < buffer.length by omega),
    List.get_eq_getElem]

theorem get_rgb_isSome (p : Pixel) (buffer : List Nat)
    (h : p.index + 2 < buffer.length) :
    (p.get_rgb buffer).isSome = true := by
  rw [get_rgb_eval p buffer h]
  rfl

/-- C6: for every buffer, in-bounds pixel and `(r, g, b)`, `set_rgb` followed
by `get_rgb` on the same pixel returns exactly `(r, g, b)`. -/
theorem set_get_roundtrip (p : Pixel) (buffer : List Nat) (r g b : Nat)
    (h : p.index + 2 < buffer.length) :
    (p.set_rgb buffer r g b).bind p.get_rgb = some (r, g, b) := by
  rw [set_rgb_some p buffer r g b h]
  have h2 : p.index + 2 <
      (((buffer.set p.index b).set (p.index + 1) g).set (p.index + 2) r).length := by
    simp [List.length_set]
    omega
  rw [Option.some_bind, get_rgb_eval _ _ h2]
  simp only [List.get_eq_getElem]
  obtain ⟨wa, wb, wc⟩ := set_rgb_written p buffer r g b _
    (set_rgb_some p buffer r g b h)
  rw [List.getElem?_eq_getElem h2] at wc
  rw [List.getElem?_eq_getElem (show p.index + 1 < _ from by omega)] at wb
  rw [List.getElem?_eq_getElem (show p.index < _ from by omega)] at wa
  simp only [Option.some.injEq] at wa wb wc
  rw [wa, wb, wc]

/-- Witness for C6 at a concrete in-bounds pixel. -/
theorem set_get_roundtrip_witness :
    (Pixel.set_rgb ⟨0⟩ [9, 9, 9] 1 2 3).bind (Pixel.get_rgb ⟨0⟩) =
      some (1, 2, 3) :=
  set_get_roundtrip ⟨0⟩ [9, 9, 9] 1 2 3 (by decide)

/-- C8: for every in-bounds pixel and `(r, g, b)`, `set_rgb` writes exactly
`b` at `index`, `g` at `index + 1`, `r` at `index + 2`, leaving every other
byte and the length unchanged. -/
theorem set_rgb_writes_bgr (p : Pixel) (buffer : List Nat) (r g b : Nat)
    (h : p.index + 2 < buffer.length) : writesExactly p buffer r g b := by
  have hs := set_rgb_some p buffer r g b h
  obtain ⟨wa, wb, wc⟩ := set_rgb_written p buffer r g b _ hs
  refine ⟨_, hs, set_rgb_length p buffer r g b _ hs, wa, wb, wc, ?_⟩
  intro j hj1 hj2 hj3
  exact set_rgb_untouched p buffer r g b _ j hs (by simp [pixelCovers]; tauto)

/-- Witness for C8 at a concrete in-bounds pixel. -/
theorem set_rgb_writes_bgr_witness : writesExactly ⟨0⟩ [9, 9, 9, 9] 1 2 3 :=
  set_rgb_writes_bgr ⟨0⟩ [9, 9, 9, 9] 1 2 3 (by decide)

/-! ### Fill-loop lemmas -/

theorem fillRow_cons (p : Pixel) (ps : List Pixel) (buffer : List Nat)
    (rgb : Nat × Nat × Nat) :
    fillRow (p :: ps) buffer rgb =
      (p.set_rgb buffer rgb.1 rgb.2.1 rgb.2.2).bind
        (fun mid => fillRow ps mid rgb) := rfl

theorem fillRows_cons (row : List Pixel) (rows : List (List Pixel))
    (buffer : List Nat) (rgb : Nat × Nat × Nat) :
    fillRows (row :: rows) buffer rgb =
      (fillRow row buffer rgb).bind (fun mid => fillRows rows mid rgb) := rfl

theorem fillRow_length : ∀ (ps : List Pixel) (buffer : List Nat)
    (rgb : Nat × Nat × Nat) (out : List Nat),
    fillRow ps buffer rgb = some out → out.length = buffer.length := by
  intro ps
  induction ps with
  | nil =>
    intro buffer rgb out h
    injection h with h
    rw [← h]
  | cons p ps ih =>
    intro buffer rgb out h
    rw [fillRow_cons, Option.bind_eq_some] at h
    obtain ⟨mid, hmid, hrest⟩ := h
    rw [ih mid rgb out hrest, set_rgb_length p buffer rgb.1 rgb.2.1 rgb.2.2 mid hmid]

theorem fillRow_isSome_iff : ∀ (ps : List Pixel) (buffer : List Nat)
    (rgb : Nat × Nat × Nat),
    (fillRow ps buffer rgb).isSome = true ↔
      ∀ p ∈ ps, p.index + 2 < buffer.length := by
  intro ps
  induction ps with
  | nil =>
    intro buffer rgb
    simp [fillRow]
  | cons p ps ih =>
    intro buffer rgb
    by_cases hp : p.index + 2 < buffer.length
    · have hs := set_rgb_some p buffer rgb.1 rgb.2.1 rgb.2.2 hp
      have hlen : (((buffer.set p.index rgb.2.2).set (p.index + 1) rgb.2.1).set
          (p.index + 2) rgb.1).length = buffer.length := by simp
      rw [fillRow_cons, hs, Option.some_bind, ih _ rgb]
      simp only [hlen, List.mem_cons]
      constructor
      · intro h q hq
        rcases hq with rfl | hq
        · exact hp
        · exact h q hq
      · intro h q hq
        exact h q (Or.inr hq)
    · have hs := set_rgb_none p buffer rgb.1 rgb.2.1 rgb.2.2 hp
      rw [fillRow_cons, hs, Option.none_bind]
      constructor
      · intro h
        cases h
      · intro h
        exact absurd (h p (List.mem_cons_self p ps)) hp

theorem fillRow_untouched : ∀ (ps : List Pixel) (buffer : List Nat)
    (rgb : Nat × Nat × Nat) (out : List Nat) (j : Nat),
    fillRow ps buffer rgb = some out → (∀ p ∈ ps, ¬ pixelCovers p j) →
    out[j]? = buffer[j]? := by
  intro ps
  induction ps with
  | nil =>
    intro buffer rgb out j h _
    injection h with h
    rw [← h]
  | cons p ps ih =>
    intro buffer rgb out j h hj
    rw [fillRow_cons, Option.bind_eq_some] at h
    obtain ⟨mid, hmid, hrest⟩ := h
    rw [ih mid rgb out j hrest (fun q hq => hj q (List.mem_cons_of_mem p hq))]
    exact set_rgb_untouched p buffer rgb.1 rgb.2.1 rgb.2.2 mid j hmid
      (hj p (List.mem_cons_self p ps))

theorem fillRow_det : ∀ (ps : List Pixel) (b1 b2 : List Nat)
    (rgb : Nat × Nat × Nat) (o1 o2 : List Nat) (j : Nat),
    b1.length = b2.length →
    fillRow ps b1 rgb = some o1 → fillRow ps b2 rgb = some o2 →
    (∃ p ∈ ps, pixelCovers p j) → o1[j]? = o2[j]? := by
  intro ps
  induction ps with
  | nil =>
    intro b1 b2 rgb o1 o2 j _ _ _ hex
    simp at hex
  | cons p ps ih =>
    intro b1 b2 rgb o1 o2 j hlen h1 h2 hex
    rw [fillRow_cons, Option.bind_eq_some] at h1 h2
    obtain ⟨m1, hm1, hr1⟩ := h1
    obtain ⟨m2, hm2, hr2⟩ := h2
    have hmlen : m1.length = m2.length := by
      rw [set_rgb_length p b1 rgb.1 rgb.2.1 rgb.2.2 m1 hm1,
        set_rgb_length p b2 rgb.1 rgb.2.1 rgb.2.2 m2 hm2, hlen]
    by_cases hrest : ∃ q ∈ ps, pixelCovers q j
    · exact ih m1 m2 rgb o1 o2 j hmlen hr1 hr2 hrest
    · have hnone : ∀ q ∈ ps, ¬ pixelCovers q j := by
        push_neg at hrest
        exact hrest
      have hpj : pixelCovers p j := by
        obtain ⟨q, hq, hcov⟩ := hex
        rcases List.mem_cons.mp hq with rfl | hq
        · exact hcov
        · exact absurd hcov (hnone q hq)
      rw [fillRow_untouched ps m1 rgb o1 j hr1 hnone,
        fillRow_untouched ps m2 rgb o2 j hr2 hnone]
      exact set_rgb_det p b1 b2 rgb.1 rgb.2.1 rgb.2.2 m1 m2 j hm1 hm2 hpj

theorem fillRows_length : ∀ (rows : List (List Pixel)) (buffer : List Nat)
    (rgb : Nat × Nat × Nat) (out : List Nat),
    fillRows rows buffer rgb = some out → out.length = buffer.length := by
  intro rows
  induction rows with
  | nil =>
    intro buffer rgb out h
    injection h with h
    rw [← h]
  | cons row rows ih =>
    intro buffer rgb out h
    rw [fillRows_cons, Option.bind_eq_some] at h
    obtain ⟨mid, hmid, hrest⟩ := h
    rw [ih mid rgb out hrest, fillRow_length row buffer rgb mid hmid]

theorem fillRows_isSome_iff : ∀ (rows : List (List Pixel)) (buffer : List Nat)
    (rgb : Nat × Nat × Nat),
    (fillRows rows buffer rgb).isSome = true ↔
      ∀ row ∈ rows, ∀ p ∈ row, p.index + 2 < buffer.length := by
  intro rows
  induction rows with
  | nil =>
    intro buffer rgb
    simp [fillRows]
  | cons row rows ih =>
    intro buffer rgb
    by_cases hrow : ∀ p ∈ row, p.index + 2 < buffer.length
    · obtain ⟨mid, hmid⟩ := Option.isSome_iff_exists.mp
        ((fillRow_isSome_iff row buffer rgb).mpr hrow)
      have hmlen : mid.length = buffer.length :=
        fillRow_length row buffer rgb mid hmid
      rw [fillRows_cons, hmid, Option.some_bind, ih mid rgb]
      simp only [hmlen, List.mem_cons]
      constructor
      · intro h q hq
        rcases hq with rfl | hq
        · exact hrow
        · exact h q hq
      · intro h q hq
        exact h q (Or.inr hq)
    · have hnone : fillRow row buffer rgb = none := by
        cases hf : fillRow row buffer rgb with
        | none => rfl
        | some mid =>
          exact absurd ((fillRow_isSome_iff row buffer rgb).mp (by rw [hf]; rfl))
            hrow
      rw [fillRows_cons, hnone, Option.none_bind]
      constructor
      · intro h
        cases h
      · intro h
        exact absurd (h row (List.mem_cons_self row rows)) hrow

theorem fillRows_untouched : ∀ (rows : List (List Pixel)) (buffer : List Nat)
    (rgb : Nat × Nat × Nat) (out : List Nat) (j : Nat),
    fillRows rows buffer rgb = some out →
    (∀ row ∈ rows, ∀ p ∈ row, ¬ pixelCovers p j) →
    out[j]? = buffer[j]? := by
  intro rows
  induction rows with
  | nil =>
    intro buffer rgb out j h _
    injection h with h
    rw [← h]
  | cons row rows ih =>
    intro buffer rgb out j h hj
    rw [fillRows_cons, Option.bind_eq_some] at h
    obtain ⟨mid, hmid, hrest⟩ := h
    rw [ih mid rgb out j hrest (fun q hq => hj q (List.mem_cons_of_mem row hq))]
    exact fillRow_untouched row buffer rgb mid j hmid
      (hj row (List.mem_cons_self row rows))

theorem fillRows_det : ∀ (rows : List (List Pixel)) (b1 b2 : List Nat)
    (rgb : Nat × Nat × Nat) (o1 o2 : List Nat) (j : Nat),
    b1.length = b2.length →
    fillRows rows b1 rgb = some o1 → fillRows rows b2 rgb = some o2 →
    (∃ row ∈ rows, ∃ p ∈ row, pixelCovers p j) → o1[j]? = o2[j]? := by
  intro rows
  induction rows with
  | nil =>
    intro b1 b2 rgb o1 o2 j _ _ _ hex
    simp at hex
  | cons row rows ih =>
    intro b1 b2 rgb o1 o2 j hlen h1 h2 hex
    rw [fillRows_cons, Option.bind_eq_some] at h1 h2
    obtain ⟨m1, hm1, hr1⟩ := h1
    obtain ⟨m2, hm2, hr2⟩ := h2
    have hmlen : m1.length = m2.length := by
      rw [fillRow_length row b1 rgb m1 hm1, fillRow_length row b2 rgb m2 hm2,
        hlen]
    by_cases hrest : ∃ r ∈ rows, ∃ p ∈ r, pixelCovers p j
    · exact ih m1 m2 rgb o1 o2 j hmlen hr1 hr2 hrest
    · have hnone : ∀ r ∈ rows, ∀ p ∈ r, ¬ pixelCovers p j := by
        push_neg at hrest
        exact hrest
      have hrowj : ∃ p ∈ row, pixelCovers p j := by
        obtain ⟨r, hr, q, hq, hcov⟩ := hex
        rcases List.mem_cons.mp hr with rfl | hr
        · exact ⟨q, hq, hcov⟩
        · exact absurd hcov (hnone r hr q hq)
      rw [fillRows_untouched rows m1 rgb o1 j hr1 hnone,
        fillRows_untouched rows m2 rgb o2 j hr2 hnone]
      exact fillRow_det row b1 b2 rgb m1 m2 j hlen hm1 hm2 hrowj

/-- C7: filling a `Rectangle` twice with the same color produces exactly the
same buffer state as filling it once. -/
theorem fill_idempotent (r : Rectangle) (buffer : List Nat)
    (rgb : Nat × Nat × Nat) :
    (r.fill buffer rgb).bind (fun out => r.fill out rgb) = r.fill buffer rgb := by
  cases h : r.fill buffer rgb with
  | none => rfl
  | some b1 =>
    rw [Option.some_bind]
    unfold Rectangle.fill at h ⊢
    have hlen : b1.length = buffer.length :=
      fillRows_length r.pixels buffer rgb b1 h
    have hsome : (fillRows r.pixels b1 rgb).isSome = true := by
      rw [fillRows_isSome_iff]
      intro row hrow p hp
      rw [hlen]
      exact (fillRows_isSome_iff r.pixels buffer rgb).mp (by rw [h]; rfl)
        row hrow p hp
    obtain ⟨b2, h2⟩ := Option.isSome_iff_exists.mp hsome
    rw [h2]
    congr 1
    rw [List.ext_getElem?_iff]
    intro j
    by_cases hc : ∃ row ∈ r.pixels, ∃ p ∈ row, pixelCovers p j
    · exact (fillRows_det r.pixels buffer b1 rgb b1 b2 j hlen.symm h h2 hc).symm
    · push_neg at hc
      exact fillRows_untouched r.pixels b1 rgb b2 j h2 hc

/-- C10: `Rectangle::fill` changes only the three bytes of each of the
rectangle's own pixels; every other byte and the buffer length are
unchanged. -/
theorem fill_frame_effect (r : Rectangle) (buffer : List Nat)
    (rgb : Nat × Nat × Nat) (out : List Nat)
    (h : r.fill buffer rgb = some out) : fillFrameSpec r buffer out := by
  unfold Rectangle.fill at h
  refine ⟨fillRows_length r.pixels buffer rgb out h, ?_⟩
  intro j hj
  refine fillRows_untouched r.pixels buffer rgb out j h ?_
  intro row hrow p hp
  exact hj p (List.mem_flatten.mpr ⟨row, hrow, hp⟩)

/-- Witness for C10 at a concrete one-pixel rectangle and buffer. -/
theorem fill_frame_effect_witness :
    fillFrameSpec (Rectangle.from_dimensions ⟨0, 0⟩ 1 1 ⟨⟨8⟩, ⟨32, 1⟩⟩)
      [9, 9, 9, 9, 9, 9, 9, 9] [3, 2, 1, 9, 9, 9, 9, 9] :=
  fill_frame_effect (Rectangle.from_dimensions ⟨0, 0⟩ 1 1 ⟨⟨8⟩, ⟨32, 1⟩⟩)
    [9, 9, 9, 9, 9, 9, 9, 9] (1, 2, 3) [3, 2, 1, 9, 9, 9, 9, 9] (by decide)

/-- C5: `fill` and `fill_border` with an out-of-range window id fail with an
indexing error; no updated manager state (in particular no updated buffer) is
produced. -/
theorem fill_out_of_range_fails (m : FBmanager) (id : Nat)
    (rgb : Nat × Nat × Nat) (h : m.windows.length ≤ id) :
    m.fill id rgb = none ∧ m.fill_border id rgb = none := by
  have hg : m.windows[id]? = none := List.getElem?_eq_none_iff.mpr h
  constructor <;> simp [FBmanager.fill, FBmanager.fill_border, hg]

/-- Witness for C5: id 5 on a manager with no windows. -/
theorem fill_out_of_range_fails_witness :
    FBmanager.fill emptyFB 5 (1, 2, 3) = none ∧
      FBmanager.fill_border emptyFB 5 (1, 2, 3) = none :=
  fill_out_of_range_fails emptyFB 5 (1, 2, 3) (by decide)

/-! ### Rectangle grid lemmas -/

theorem from_dimensions_pixels (loc : Point) (h w : Nat) (fb : Framebuffer) :
    (Rectangle.from_dimensions loc h w fb).pixels =
      (List.range h).map (fun i => (List.range w).map (fun k =>
        { index := (i + loc.y) * fb.line_length + (k + loc.x) * fb.bytespp })) :=
  rfl

theorem pixelAt_eq (loc : Point) (h w : Nat) (fb : Framebuffer) (i k : Nat)
    (hi : i < h) (hk : k < w) :
    ((Rectangle.from_dimensions loc h w fb).pixels[i]?).bind
        (fun row => row[k]?) =
      some { index := (i + loc.y) * fb.line_length + (k + loc.x) * fb.bytespp } := by
  rw [from_dimensions_pixels]
  rw [List.getElem?_map, List.getElem?_range hi]
  simp [List.getElem?_map, List.getElem?_range hk]

theorem phi_inj (L B : Nat) (hB : 0 < B) (r c r' c' : Nat)
    (hc : (c + 1) * B ≤ L) (hc' : (c' + 1) * B ≤ L)
    (h : r * L + c * B = r' * L + c' * B) : r = r' ∧ c = c' := by
  have e2 : (c + 1) * B = c * B + B := Nat.succ_mul c B
  have e2' : (c' + 1) * B = c' * B + B := Nat.succ_mul c' B
  have hr : r = r' := by
    rcases Nat.lt_trichotomy r r' with hlt | heq | hgt
    · exfalso
      have h1 : (r + 1) * L ≤ r' * L := Nat.mul_le_mul_right L hlt
      have e1 : (r + 1) * L = r * L + L := Nat.succ_mul r L
      omega
    · exact heq
    · exfalso
      have h1 : (r' + 1) * L ≤ r * L := Nat.mul_le_mul_right L hgt
      have e1 : (r' + 1) * L = r' * L + L := Nat.succ_mul r' L
      omega
  subst hr
  have hc2 : c * B = c' * B := by omega
  exact ⟨rfl, Nat.eq_of_mul_eq_mul_right hB hc2⟩

theorem col_byte_bound (B L x w k : Nat) (hk : k < w)
    (hx : (x + w) * B ≤ L) : (k + x + 1) * B ≤ L :=
  le_trans (Nat.mul_le_mul_right B (by omega)) hx

theorem sum_map_length (l : List (List Pixel)) (w : Nat)
    (h : ∀ x ∈ l, x.length = w) : (l.map List.length).sum = l.length * w := by
  induction l with
  | nil => simp
  | cons x l ih =>
    simp only [List.map_cons, List.sum_cons, List.length_cons]
    rw [h x (List.mem_cons_self x l),
      ih (fun y hy => h y (List.mem_cons_of_mem x hy)), Nat.succ_mul]
    omega

/-- C1: for valid geometry (positive pixel size, rectangle within the
addressable area), `Rectangle::from_dimensions` produces an `h × w` grid of
pixels whose offsets follow the addressing formula and are pairwise
distinct. -/
theorem rectangle_from_dimensions_correct (loc : Point) (h w : Nat)
    (fb : Framebuffer) (hbpp : 0 < fb.bytespp)
    (hx : (loc.x + w) * fb.bytespp ≤ fb.line_length)
    (hy : loc.y + h ≤ fb.height) : rectCorrect loc h w fb := by
  simp only [rectCorrect]
  refine ⟨?_, ?_, ?_, ?_, ?_⟩
  · rw [from_dimensions_pixels]
    simp
  · intro row hrow
    rw [from_dimensions_pixels] at hrow
    obtain ⟨i, -, rfl⟩ := List.mem_map.mp hrow
    simp
  · rw [sum_map_length _ w]
    · rw [from_dimensions_pixels]
      simp [Nat.mul_comm]
    · intro row hrow
      rw [from_dimensions_pixels] at hrow
      obtain ⟨i, -, rfl⟩ := List.mem_map.mp hrow
      simp
  · intro i k hi hk
    exact pixelAt_eq loc h w fb i k hi hk
  · intro i k i' k' hi hk hi' hk' heq
    rw [pixelAt_eq loc h w fb i k hi hk,
      pixelAt_eq loc h w fb i' k' hi' hk'] at heq
    simp only [Option.some.injEq, Pixel.mk.injEq] at heq
    have := phi_inj fb.line_length fb.bytespp hbpp (i + loc.y) (k + loc.x)
      (i' + loc.y) (k' + loc.x)
      (col_byte_bound fb.bytespp fb.line_length loc.x w k hk hx)
      (col_byte_bound fb.bytespp fb.line_length loc.x w k' hk' hx) heq
    omega

/-- Witness for C1 at a concrete valid geometry: a 2 × 2 rectangle at the
origin of an 8-byte-stride, 2-row, 4-byte-pixel display. -/
theorem rectangle_from_dimensions_correct_witness :
    rectCorrect ⟨0, 0⟩ 2 2 ⟨⟨8⟩, ⟨32, 2⟩⟩ :=
  rectangle_from_dimensions_correct ⟨0, 0⟩ 2 2 ⟨⟨8⟩, ⟨32, 2⟩⟩ (by decide)
    (by decide) (by decide)

/-! ### Window construction lemmas -/

theorem csub_pos (a b : Nat) (h : b ≤ a) : csub a b = some (a - b) := by
  simp [csub, h]

theorem csub_eq_some (a b d : Nat) : csub a b = some d ↔ b ≤ a ∧ d = a - b := by
  unfold csub
  split <;> simp_all [eq_comm]

theorem point_add_def (p : Point) (o : Nat × Nat) :
    p + o = { x := p.x + o.1, y := p.y + o.2 } := rfl

theorem buildWindow_zero (fb : Framebuffer) (t : WindowTemplate)
    (h : t.border_thickness = 0) :
    buildWindow fb t = some
      { border := none
        width := t.width
        height := t.height
        main_context := Rectangle.from_dimensions t.location t.height t.width fb } := by
  simp [buildWindow, h]

theorem buildWindow_pos (fb : Framebuffer) (t : WindowTemplate)
    (hbt : 0 < t.border_thickness)
    (hh : 2 * t.border_thickness ≤ t.height)
    (hw : 2 * t.border_thickness ≤ t.width) :
    buildWindow fb t = some
      { border := some
          { top := Rectangle.from_dimensions
              ⟨t.location.x, t.location.y⟩ t.border_thickness t.width fb
            bot := Rectangle.from_dimensions
              ⟨t.location.x, t.location.y + (t.height - t.border_thickness)⟩
              t.border_thickness t.width fb
            left := Rectangle.from_dimensions
              ⟨t.location.x, t.location.y + t.border_thickness⟩
              (t.height - 2 * t.border_thickness) t.border_thickness fb
            right := Rectangle.from_dimensions
              ⟨t.location.x + (t.width - t.border_thickness),
               t.location.y + t.border_thickness⟩
              (t.height - 2 * t.border_thickness) t.border_thickness fb }
        width := t.width
        height := t.height
        main_context := Rectangle.from_dimensions
          ⟨t.location.x + t.border_thickness, t.location.y + t.border_thickness⟩
          (t.height - 2 * t.border_thickness) (t.width - 2 * t.border_thickness)
          fb } := by
  have h1 : t.border_thickness ≤ t.height := by omega
  have h2 : t.border_thickness ≤ t.width := by omega
  unfold buildWindow
  rw [if_pos hbt, csub_pos t.height t.border_thickness h1,
    csub_pos t.width t.border_thickness h2,
    csub_pos t.height (2 * t.border_thickness) hh,
    csub_pos t.width (2 * t.border_thickness) hw]
  rfl

theorem mem_offsets_idx (fb : Framebuffer) (x y h w a : Nat) :
    a ∈ (Rectangle.from_dimensions ⟨x, y⟩ h w fb).offsets ↔
      ∃ i k, i < h ∧ k < w ∧
        a = (i + y) * fb.line_length + (k + x) * fb.bytespp := by
  unfold Rectangle.offsets
  rw [from_dimensions_pixels]
  constructor
  · intro ha
    obtain ⟨p, hp, rfl⟩ := List.mem_map.mp ha
    obtain ⟨row, hrow, hprow⟩ := List.mem_flatten.mp hp
    obtain ⟨i, hi, rfl⟩ := List.mem_map.mp hrow
    obtain ⟨k, hk, rfl⟩ := List.mem_map.mp hprow
    exact ⟨i, k, List.mem_range.mp hi, List.mem_range.mp hk, rfl⟩
  · rintro ⟨i, k, hi, hk, rfl⟩
    exact List.mem_map.mpr ⟨_, List.mem_flatten.mpr
      ⟨_, List.mem_map.mpr ⟨i, List.mem_range.mpr hi, rfl⟩,
        List.mem_map.mpr ⟨k, List.mem_range.mpr hk, rfl⟩⟩, rfl⟩

theorem mem_offsets_abs (fb : Framebuffer) (x y h w a : Nat) :
    a ∈ (Rectangle.from_dimensions ⟨x, y⟩ h w fb).offsets ↔
      ∃ r c, y ≤ r ∧ r < y + h ∧ x ≤ c ∧ c < x + w ∧
        a = r * fb.line_length + c * fb.bytespp := by
  rw [mem_offsets_idx]
  constructor
  · rintro ⟨i, k, hi, hk, rfl⟩
    exact ⟨i + y, k + x, by omega, by omega, by omega, by omega, rfl⟩
  · rintro ⟨r, c, hr1, hr2, hc1, hc2, rfl⟩
    refine ⟨r - y, c - x, by omega, by omega, ?_⟩
    have e1 : r - y + y = r := by omega
    have e2 : c - x + x = c := by omega
    rw [e1, e2]

theorem stride_fit (B L s1 s2 : Nat) (hle : s1 ≤ s2) (h2 : s2 * B ≤ L) :
    s1 * B ≤ L :=
  le_trans (Nat.mul_le_mul_right B hle) h2

theorem offsets_disjoint_of_sep (fb : Framebuffer)
    (x1 y1 h1 w1 x2 y2 h2 w2 : Nat) (hbpp : 0 < fb.bytespp)
    (hc1 : (x1 + w1) * fb.bytespp ≤ fb.line_length)
    (hc2 : (x2 + w2) * fb.bytespp ≤ fb.line_length)
    (hsep : y1 + h1 ≤ y2 ∨ y2 + h2 ≤ y1 ∨ x1 + w1 ≤ x2 ∨ x2 + w2 ≤ x1) :
    offDisj (Rectangle.from_dimensions ⟨x1, y1⟩ h1 w1 fb)
      (Rectangle.from_dimensions ⟨x2, y2⟩ h2 w2 fb) := by
  intro a m1 m2
  rw [mem_offsets_abs] at m1 m2
  obtain ⟨r, c, hra, hrb, hca, hcb, rfl⟩ := m1
  obtain ⟨r', c', hra', hrb', hca', hcb', heq⟩ := m2
  have hb1 : (c + 1) * fb.bytespp ≤ fb.line_length :=
    stride_fit fb.bytespp fb.line_length (c + 1) (x1 + w1) (by omega) hc1
  have hb2 : (c' + 1) * fb.bytespp ≤ fb.line_length :=
    stride_fit fb.bytespp fb.line_length (c' + 1) (x2 + w2) (by omega) hc2
  obtain ⟨hre, hce⟩ :=
    phi_inj fb.line_length fb.bytespp hbpp r c r' c' hb1 hb2 heq
  omega

/-- C2: in a window built from a template with positive border thickness
satisfying `2 t < min(width, height)` (against valid display geometry), the
interior and the four border rectangles cover pairwise disjoint offset sets
whose union is exactly the offsets of the full `width × height` footprint at
the window's location. -/
theorem window_regions_partition (fb : Framebuffer) (tpl : WindowTemplate)
    (w : Window) (b : Border) (hbpp : 0 < fb.bytespp)
    (hx : (tpl.location.x + tpl.width) * fb.bytespp ≤ fb.line_length)
    (hbt : 0 < tpl.border_thickness)
    (hh : 2 * tpl.border_thickness < tpl.height)
    (hw : 2 * tpl.border_thickness < tpl.width)
    (hwin : buildWindow fb tpl = some w) (hb : w.border = some b) :
    windowPartition w b
      (Rectangle.from_dimensions tpl.location tpl.height tpl.width fb) := by
  rw [buildWindow_pos fb tpl hbt (by omega) (by omega)] at hwin
  obtain rfl := Option.some.inj hwin
  obtain rfl : _ = b := Option.some.inj hb
  unfold windowPartition
  have hxm : (tpl.location.x + tpl.border_thickness +
      (tpl.width - 2 * tpl.border_thickness)) * fb.bytespp ≤ fb.line_length :=
    stride_fit fb.bytespp fb.line_length _ (tpl.location.x + tpl.width)
      (by omega) hx
  have hxt : (tpl.location.x + tpl.width) * fb.bytespp ≤ fb.line_length := hx
  have hxl : (tpl.location.x + tpl.border_thickness) * fb.bytespp ≤
      fb.line_length :=
    stride_fit fb.bytespp fb.line_length _ (tpl.location.x + tpl.width)
      (by omega) hx
  have hxr : (tpl.location.x + (tpl.width - tpl.border_thickness) +
      tpl.border_thickness) * fb.bytespp ≤ fb.line_length :=
    stride_fit fb.bytespp fb.line_length _ (tpl.location.x + tpl.width)
      (by omega) hx
  refine ⟨?_, ?_, ?_, ?_, ?_, ?_, ?_, ?_, ?_, ?_, ?_⟩
  · exact offsets_disjoint_of_sep fb _ _ _ _ _ _ _ _ hbpp hxm hxt (by omega)
  · exact offsets_disjoint_of_sep fb _ _ _ _ _ _ _ _ hbpp hxm hxt (by omega)
  · exact offsets_disjoint_of_sep fb _ _ _ _ _ _ _ _ hbpp hxm hxl (by omega)
  · exact offsets_disjoint_of_sep fb _ _ _ _ _ _ _ _ hbpp hxm hxr (by omega)
  · exact offsets_disjoint_of_sep fb _ _ _ _ _ _ _ _ hbpp hxt hxt (by omega)
  · exact offsets_disjoint_of_sep fb _ _ _ _ _ _ _ _ hbpp hxt hxl (by omega)
  · exact offsets_disjoint_of_sep fb _ _ _ _ _ _ _ _ hbpp hxt hxr (by omega)
  · exact offsets_disjoint_of_sep fb _ _ _ _ _ _ _ _ hbpp hxt hxl (by omega)
  · exact offsets_disjoint_of_sep fb _ _ _ _ _ _ _ _ hbpp hxt hxr (by omega)
  · exact offsets_disjoint_of_sep fb _ _ _ _ _ _ _ _ hbpp hxl hxr (by omega)
  · intro a
    rw [show Rectangle.from_dimensions tpl.location tpl.height tpl.width fb =
        Rectangle.from_dimensions ⟨tpl.location.x, tpl.location.y⟩ tpl.height
          tpl.width fb from rfl]
    rw [mem_offsets_abs, mem_offsets_abs, mem_offsets_abs, mem_offsets_abs,
      mem_offsets_abs, mem_offsets_abs]
    constructor
    · rintro (⟨r, c, h1, h2, h3, h4, he⟩ | ⟨r, c, h1, h2, h3, h4, he⟩ |
        ⟨r, c, h1, h2, h3, h4, he⟩ | ⟨r, c, h1, h2, h3, h4, he⟩ |
        ⟨r, c, h1, h2, h3, h4, he⟩) <;>
      exact ⟨r, c, by omega, by omega, by omega, by omega, he⟩
    · rintro ⟨r, c, h1, h2, h3, h4, he⟩
      by_cases c1 : r < tpl.location.y + tpl.border_thickness
      · exact Or.inr (Or.inl ⟨r, c, by omega, by omega, by omega, by omega, he⟩)
      by_cases c2 : tpl.location.y + (tpl.height - tpl.border_thickness) ≤ r
      · exact Or.inr (Or.inr (Or.inl
          ⟨r, c, by omega, by omega, by omega, by omega, he⟩))
      by_cases c3 : c < tpl.location.x + tpl.border_thickness
      · exact Or.inr (Or.inr (Or.inr (Or.inl
          ⟨r, c, by omega, by omega, by omega, by omega, he⟩)))
      by_cases c4 : tpl.location.x + (tpl.width - tpl.border_thickness) ≤ c
      · exact Or.inr (Or.inr (Or.inr (Or.inr
          ⟨r, c, by omega, by omega, by omega, by omega, he⟩)))
      · exact Or.inl ⟨r, c, by omega, by omega, by omega, by omega, he⟩

/-- Witness for C2: a 4 × 4 window with border thickness 1 on a
16-byte-stride, 4-row, 4-byte-pixel display. -/
theorem window_regions_partition_witness :
    windowPartition
      ((buildWindow ⟨⟨16⟩, ⟨32, 4⟩⟩ ⟨0, ⟨0, 0⟩, 4, 4, 1⟩).getD emptyWindow)
      (((buildWindow ⟨⟨16⟩, ⟨32, 4⟩⟩ ⟨0, ⟨0, 0⟩, 4, 4, 1⟩).getD
          emptyWindow).border.getD emptyBorder)
      (Rectangle.from_dimensions ⟨0, 0⟩ 4 4 ⟨⟨16⟩, ⟨32, 4⟩⟩) :=
  window_regions_partition ⟨⟨16⟩, ⟨32, 4⟩⟩ ⟨0, ⟨0, 0⟩, 4, 4, 1⟩ _ _
    (by decide) (by decide) (by decide) (by decide) (by decide) rfl rfl

/-! ### Manager construction lemmas -/

theorem buildWindows_cons (fb : Framebuffer) (t : WindowTemplate)
    (ts : List WindowTemplate) :
    buildWindows fb (t :: ts) = (buildWindow fb t).bind (fun w =>
      (buildWindows fb ts).bind (fun ws => some (w :: ws))) := rfl

theorem buildWindows_spec (fb : Framebuffer) :
    ∀ (ts : List WindowTemplate) (ws : List Window),
    buildWindows fb ts = some ws →
    ws.length = ts.length ∧
      (∀ i, (hi : i < ts.length) → ws[i]? = buildWindow fb ts[i]) ∧
      (∀ w ∈ ws, ∃ t ∈ ts, buildWindow fb t = some w) := by
  intro ts
  induction ts with
  | nil =>
    intro ws h
    obtain rfl := Option.some.inj h
    refine ⟨rfl, ?_, ?_⟩
    · intro i hi
      exact absurd hi (by simp)
    · intro w hw
      exact absurd hw (by simp)
  | cons t ts ih =>
    intro ws h
    rw [buildWindows_cons, Option.bind_eq_some] at h
    obtain ⟨w0, hw0, h⟩ := h
    rw [Option.bind_eq_some] at h
    obtain ⟨ws', hws', heq⟩ := h
    obtain rfl := Option.some.inj heq
    obtain ⟨ihlen, ihget, ihmem⟩ := ih ws' hws'
    refine ⟨by simp [ihlen], ?_, ?_⟩
    · intro i hi
      cases i with
      | zero => simpa using hw0.symm
      | succ n =>
        simp only [List.getElem?_cons_succ, List.getElem_cons_succ]
        exact ihget n (by simpa using hi)
    · intro w hw
      rcases List.mem_cons.mp hw with rfl | hw
      · exact ⟨t, List.mem_cons_self t ts, hw0⟩
      · obtain ⟨t', ht', hbt'⟩ := ihmem w hw
        exact ⟨t', List.mem_cons_of_mem t ht', hbt'⟩

theorem new_bind (ts : List WindowTemplate) (fb : Framebuffer) :
    FBmanager.new ts fb = (buildWindows fb ts).bind (fun ws =>
      some { framebuffer := fb
             buffer := List.replicate
               (fb.fix_screen_info.line_length * fb.var_screen_info.yres) 0
             windows := ws }) := rfl

theorem new_inv (ts : List WindowTemplate) (fb : Framebuffer) (m : FBmanager)
    (hm : FBmanager.new ts fb = some m) :
    m.framebuffer = fb ∧
      m.buffer = List.replicate (fb.line_length * fb.height) 0 ∧
      buildWindows fb ts = some m.windows := by
  rw [new_bind, Option.bind_eq_some] at hm
  obtain ⟨ws, hws, heq⟩ := hm
  obtain rfl := Option.some.inj heq
  exact ⟨rfl, rfl, hws⟩

/-- C9: `FBmanager::new` allocates a zero buffer of `row_stride * height`
bytes and builds one window per template, in template order. -/
theorem manager_new_spec (ts : List WindowTemplate) (fb : Framebuffer)
    (m : FBmanager) (hm : FBmanager.new ts fb = some m) :
    managerBuildSpec ts fb m := by
  obtain ⟨-, hbuf, hws⟩ := new_inv ts fb m hm
  obtain ⟨hlen, hget, -⟩ := buildWindows_spec fb ts m.windows hws
  refine ⟨?_, ?_, hlen, hget⟩
  · rw [hbuf, List.length_replicate]
  · intro x hx
    rw [hbuf] at hx
    exact List.eq_of_mem_replicate hx

/-- Witness for C9: one borderless 2 × 2 template on an 8-byte-stride,
2-row display. -/
theorem manager_new_spec_witness :
    managerBuildSpec [⟨0, ⟨0, 0⟩, 2, 2, 0⟩] ⟨⟨8⟩, ⟨32, 2⟩⟩
      ((FBmanager.new [⟨0, ⟨0, 0⟩, 2, 2, 0⟩] ⟨⟨8⟩, ⟨32, 2⟩⟩).getD emptyFB) :=
  manager_new_spec [⟨0, ⟨0, 0⟩, 2, 2, 0⟩] ⟨⟨8⟩, ⟨32, 2⟩⟩
    ((FBmanager.new [⟨0, ⟨0, 0⟩, 2, 2, 0⟩] ⟨⟨8⟩, ⟨32, 2⟩⟩).getD emptyFB) rfl

/-! ### Safety of constructed pixels -/

theorem buildWindow_pos_bind (fb : Framebuffer) (t : WindowTemplate)
    (hbt : 0 < t.border_thickness) :
    buildWindow fb t = (csub t.height t.border_thickness).bind (fun dy =>
      (csub t.width t.border_thickness).bind (fun dx =>
      (csub t.height (2 * t.border_thickness)).bind (fun bh =>
      (csub t.height (2 * t.border_thickness)).bind (fun ch =>
      (csub t.width (2 * t.border_thickness)).bind (fun cw =>
      some { border := some
               { top := Rectangle.from_dimensions t.location
                   t.border_thickness t.width fb
                 bot := Rectangle.from_dimensions
                   (t.location + ((0 : Nat), dy)) t.border_thickness t.width fb
                 left := Rectangle.from_dimensions
                   (t.location + ((0 : Nat), t.border_thickness)) bh
                   t.border_thickness fb
                 right := Rectangle.from_dimensions
                   (t.location + (dx, t.border_thickness)) bh
                   t.border_thickness fb }
             width := t.width
             height := t.height
             main_context := Rectangle.from_dimensions
               (t.location + (t.border_thickness, t.border_thickness)) ch cw
               fb }))))) := by
  unfold buildWindow
  rw [if_pos hbt]
  rfl

theorem buildWindow_pos_inv (fb : Framebuffer) (t : WindowTemplate)
    (w : Window) (hbt : 0 < t.border_thickness)
    (h : buildWindow fb t = some w) :
    2 * t.border_thickness ≤ t.height ∧ 2 * t.border_thickness ≤ t.width := by
  rw [buildWindow_pos_bind fb t hbt, Option.bind_eq_some] at h
  obtain ⟨dy, hdy, h⟩ := h
  rw [Option.bind_eq_some] at h
  obtain ⟨dx, hdx, h⟩ := h
  rw [Option.bind_eq_some] at h
  obtain ⟨bh, hbh, h⟩ := h
  rw [Option.bind_eq_some] at h
  obtain ⟨ch, hch, h⟩ := h
  rw [Option.bind_eq_some] at h
  obtain ⟨cw, hcw, -⟩ := h
  exact ⟨((csub_eq_some _ _ _).mp hbh).1, ((csub_eq_some _ _ _).mp hcw).1⟩

theorem rect_safe (fb : Framebuffer) (x y h w : Nat)
    (hbpp : 3 ≤ fb.bytespp)
    (hx : (x + w) * fb.bytespp ≤ fb.line_length)
    (hy : y + h ≤ fb.height) :
    ∀ p ∈ (Rectangle.from_dimensions ⟨x, y⟩ h w fb).pixels.flatten,
      p.index + 2 < fb.line_length * fb.height := by
  intro p hp
  rw [from_dimensions_pixels] at hp
  obtain ⟨row, hrow, hprow⟩ := List.mem_flatten.mp hp
  obtain ⟨i, hi, rfl⟩ := List.mem_map.mp hrow
  obtain ⟨k, hk, rfl⟩ := List.mem_map.mp hprow
  rw [List.mem_range] at hi hk
  have hcb : (k + x + 1) * fb.bytespp ≤ fb.line_length :=
    col_byte_bound fb.bytespp fb.line_length x w k hk hx
  have hrow2 : (i + y + 1) * fb.line_length ≤
      fb.height * fb.line_length :=
    Nat.mul_le_mul_right fb.line_length (by omega)
  have e1 : (i + y + 1) * fb.line_length =
      (i + y) * fb.line_length + fb.line_length := Nat.succ_mul _ _
  have e2 : (k + x + 1) * fb.bytespp =
      (k + x) * fb.bytespp + fb.bytespp := Nat.succ_mul _ _
  have e3 : fb.height * fb.line_length = fb.line_length * fb.height :=
    Nat.mul_comm _ _
  show (i + y) * fb.line_length + (k + x) * fb.bytespp + 2 <
    fb.line_length * fb.height
  omega

theorem window_safe (fb : Framebuffer) (t : WindowTemplate) (w : Window)
    (hbpp : 3 ≤ fb.bytespp)
    (hx : (t.location.x + t.width) * fb.bytespp ≤ fb.line_length)
    (hy : t.location.y + t.height ≤ fb.height)
    (hw : buildWindow fb t = some w) :
    ∀ p ∈ w.allPixels, p.index + 2 < fb.line_length * fb.height := by
  by_cases hbt : 0 < t.border_thickness
  · obtain ⟨hh2, hw2⟩ := buildWindow_pos_inv fb t w hbt hw
    rw [buildWindow_pos fb t hbt hh2 hw2] at hw
    obtain rfl := Option.some.inj hw
    intro p hp
    simp only [Window.allPixels, Border.allPixels, List.mem_append] at hp
    rcases hp with (hp | (((hp | hp) | hp) | hp))
    · exact rect_safe fb (t.location.x + t.border_thickness)
        (t.location.y + t.border_thickness)
        (t.height - 2 * t.border_thickness)
        (t.width - 2 * t.border_thickness) hbpp
        (stride_fit fb.bytespp fb.line_length
          (t.location.x + t.border_thickness +
            (t.width - 2 * t.border_thickness))
          (t.location.x + t.width) (by omega) hx)
        (by omega) p hp
    · exact rect_safe fb t.location.x t.location.y t.border_thickness
        t.width hbpp
        (stride_fit fb.bytespp fb.line_length (t.location.x + t.width)
          (t.location.x + t.width) (by omega) hx)
        (by omega) p hp
    · exact rect_safe fb t.location.x
        (t.location.y + (t.height - t.border_thickness)) t.border_thickness
        t.width hbpp
        (stride_fit fb.bytespp fb.line_length (t.location.x + t.width)
          (t.location.x + t.width) (by omega) hx)
        (by omega) p hp
    · exact rect_safe fb t.location.x (t.location.y + t.border_thickness)
        (t.height - 2 * t.border_thickness) t.border_thickness hbpp
        (stride_fit fb.bytespp fb.line_length
          (t.location.x + t.border_thickness) (t.location.x + t.width)
          (by omega) hx)
        (by omega) p hp
    · exact rect_safe fb (t.location.x + (t.width - t.border_thickness))
        (t.location.y + t.border_thickness)
        (t.height - 2 * t.border_thickness) t.border_thickness hbpp
        (stride_fit fb.bytespp fb.line_length
          (t.location.x + (t.width - t.border_thickness) + t.border_thickness)
          (t.location.x + t.width) (by omega) hx)
        (by omega) p hp
  · rw [buildWindow_zero fb t (by omega)] at hw
    obtain rfl := Option.some.inj hw
    intro p hp
    simp only [Window.allPixels, List.append_nil] at hp
    exact rect_safe fb t.location.x t.location.y t.height t.width hbpp hx hy
      p hp

/-- C3: every pixel held by a manager whose construction completed over
templates that fit the display geometry (with at least 3 bytes per pixel)
addresses three in-bounds bytes of the manager's buffer, so `set_rgb` and
`get_rgb` through it never take the out-of-bounds branch. -/
theorem manager_pixels_in_bounds (ts : List WindowTemplate)
    (fb : Framebuffer) (m : FBmanager) (hbpp : 3 ≤ fb.bytespp)
    (hv : ∀ t ∈ ts, t.location.y + t.height ≤ fb.height ∧
      (t.location.x + t.width) * fb.bytespp ≤ fb.line_length)
    (hm : FBmanager.new ts fb = some m) : managerSafe m := by
  obtain ⟨-, hbuf, hws⟩ := new_inv ts fb m hm
  have hblen : m.buffer.length = fb.line_length * fb.height := by
    rw [hbuf, List.length_replicate]
  intro p hp
  obtain ⟨l, hl, hpl⟩ := List.mem_flatten.mp hp
  obtain ⟨w0, hw0, rfl⟩ := List.mem_map.mp hl
  obtain ⟨-, -, hmem⟩ := buildWindows_spec fb ts m.windows hws
  obtain ⟨t, ht, hbw⟩ := hmem w0 hw0
  have hsafe := window_safe fb t w0 hbpp (hv t ht).2 (hv t ht).1 hbw p hpl
  refine ⟨by omega, ?_, ?_⟩
  · intro r g b
    rw [set_rgb_isSome_iff]
    omega
  · exact get_rgb_isSome p m.buffer (by omega)

/-- Witness for C3: one borderless 2 × 2 template on an 8-byte-stride,
2-row, 4-byte-pixel display. -/
theorem manager_pixels_in_bounds_witness :
    managerSafe ((FBmanager.new [⟨0, ⟨0, 0⟩, 2, 2, 0⟩] ⟨⟨8⟩, ⟨32, 2⟩⟩).getD
      emptyFB) :=
  manager_pixels_in_bounds [⟨0, ⟨0, 0⟩, 2, 2, 0⟩] ⟨⟨8⟩, ⟨32, 2⟩⟩
    ((FBmanager.new [⟨0, ⟨0, 0⟩, 2, 2, 0⟩] ⟨⟨8⟩, ⟨32, 2⟩⟩).getD emptyFB)
    (by decide) (by decide) rfl

/-! ### Absence of configuration validation -/

/-- C4 counterexample: `FBmanager::new` performs no configuration check.  A
template with a degenerate interior (`2 * border_thickness = width = height`)
constructs successfully, and a borderless template whose 3 × 3 extent exceeds
a 2-row, 2-pixel-per-row display also constructs successfully while
producing a pixel whose three channel bytes do not fit the buffer. -/
theorem window_construction_no_validation_cex :
    (buildWindow ⟨⟨8⟩, ⟨32, 2⟩⟩ ⟨0, ⟨0, 0⟩, 2, 2, 1⟩).isSome = true ∧
    (FBmanager.new [⟨0, ⟨0, 0⟩, 3, 3, 0⟩] ⟨⟨8⟩, ⟨32, 2⟩⟩).isSome = true ∧
    (∃ p ∈ ((FBmanager.new [⟨0, ⟨0, 0⟩, 3, 3, 0⟩] ⟨⟨8⟩, ⟨32, 2⟩⟩).getD
        emptyFB).allPixels,
      ¬ p.index + 2 <
        ((FBmanager.new [⟨0, ⟨0, 0⟩, 3, 3, 0⟩] ⟨⟨8⟩, ⟨32, 2⟩⟩).getD
          emptyFB).buffer.length) := by
  decide

/-- C4 (amended): window construction validates nothing.  It completes
(reporting no error) exactly when the border arithmetic does not underflow,
i.e. when `border_thickness = 0` or `2 * border_thickness` is at most both
dimensions; degenerate (empty) interiors and extents beyond the display
geometry are accepted silently. -/
theorem window_construction_succeeds_iff (fb : Framebuffer)
    (t : WindowTemplate) :
    (buildWindow fb t).isSome = true ↔
      (t.border_thickness = 0 ∨
        (2 * t.border_thickness ≤ t.height ∧
          2 * t.border_thickness ≤ t.width)) := by
  by_cases hbt : 0 < t.border_thickness
  · constructor
    · intro h
      obtain ⟨w, hw⟩ := Option.isSome_iff_exists.mp h
      exact Or.inr (buildWindow_pos_inv fb t w hbt hw)
    · intro h
      rcases h with h | ⟨h1, h2⟩
      · omega
      · rw [buildWindow_pos fb t hbt h1 h2]
        rfl
  · rw [buildWindow_zero fb t (by omega)]
    constructor
    · intro
      exact Or.inl (by omega)
    · intro
      rfl
